import Mathlib

/-!
Verification of the B.O.G basic-name-search-tool harvesting engine.

The development shallowly embeds the JavaScript source of the repository:
the pagination driver `getArticlesRecursively`, the listing filter
`getDciLinksFromLanding`, the per-article cache/store step
`getAndStoreArticlesFromLinks`, the headline hash `hash`, the date-field
extraction `getDate` (both the `docs/index.md` variant and the
`sites/dci-palestine.org.js` variant), the `grab` filter of the puppeteer
implementation, and the per-name CLI helper `getNameVariations`.

HTML parsing (jsdom), the network, the filesystem and the extraction
service are abstracted: a listing page is represented by its parsed list
of raw article entries, the filesystem by association lists keyed by the
paths the code builds, and the network/extractor by an environment of
functions.  JavaScript strings are modelled as Lean strings; `charCodeAt`
is modelled by the character's code point (the source's headlines are
plain-text BMP strings, where the two agree).
-/

namespace BOG

set_option maxRecDepth 8000

/-- Association-list lookup (model of reading a file by path:
the most recent write to a path is found first). -/
def alookup {α β : Type} [DecidableEq α] (k : α) : List (α × β) → Option β
  | [] => none
  | (k', v) :: es => if k' = k then some v else alookup k es

/-- Characters the JavaScript `\s` class matches, restricted to the
whitespace actually occurring in the scraped date fields. -/
def isWs (c : Char) : Bool := c = ' ' || c = '\n' || c = '\t' || c = '\r'

/-- A pending maximal whitespace run is emitted verbatim when it is a
single character and deleted when the run has length at least two
(the action of one `\s{2,}` match of the global replace). -/
def emitWs (pending : List Char) : List Char :=
  if 2 ≤ pending.length then [] else pending

/-- Single left-to-right pass of `str.replace(/\s{2,}/g, '')`:
`pending` accumulates the currently open whitespace run. -/
def collapseWsAux (pending : List Char) : List Char → List Char
  | [] => emitWs pending
  | c :: cs =>
    if isWs c then collapseWsAux (pending ++ [c]) cs
    else emitWs pending ++ c :: collapseWsAux [] cs

/-- Model of `str.replace(/\s{2,}/g, '')` from `getDate` in
`docs/index.md`: every maximal run of two or more whitespace characters
is deleted; single whitespace characters are kept. -/
def collapseWs (l : List Char) : List Char := collapseWsAux [] l

/-- Single left-to-right pass of `str.replace(/\s{2,}|,/g, '')`:
like `collapseWsAux`, and every comma is deleted. -/
def cleanDciAux (pending : List Char) : List Char → List Char
  | [] => emitWs pending
  | c :: cs =>
    if isWs c then cleanDciAux (pending ++ [c]) cs
    else if c = ',' then emitWs pending ++ cleanDciAux [] cs
    else emitWs pending ++ c :: cleanDciAux [] cs

/-- Model of `str.replace(/\s{2,}|,/g, '')` from `getDate` in
`sites/dci-palestine.org.js` and in the puppeteer implementation:
whitespace runs of length at least two are deleted, and every comma is
deleted. -/
def cleanDci (l : List Char) : List Char := cleanDciAux [] l

/-- Split a character list at every occurrence of `sep`
(the semantics of JavaScript `String.prototype.split` with a
single-character separator: no run merging, empty fields kept). -/
def splitOnChar (sep : Char) : List Char → List (List Char)
  | [] => [[]]
  | c :: cs =>
    match splitOnChar sep cs with
    | [] => [[]]
    | w :: ws => if c = sep then [] :: w :: ws else (c :: w) :: ws

/-- The prefix of `line` up to (excluding) its last `'-'`:
what the greedy regex `/.*(?=-)/` matches inside one line. -/
def upToLastDash (line : List Char) : List Char :=
  ((line.reverse.dropWhile (fun c => c ≠ '-')).drop 1).reverse

/-- Model of `/.*(?=-)/.exec(s)` (with `.` not crossing a newline):
the match, when it exists, is the prefix of the first
dash-containing line up to that line's last dash. -/
def execBeforeDash (l : List Char) : Option (List Char) :=
  match (splitOnChar '\n' l).find? (fun line => line.contains '-') with
  | some line => some (upToLastDash line)
  | none => none

/-- JavaScript `String.prototype.trim` on the modelled whitespace. -/
def wsTrim (l : List Char) : List Char :=
  ((l.dropWhile isWs).reverse.dropWhile isWs).reverse

/-- `getDate` from `docs/index.md` (lines 68-76): delete whitespace runs,
run the regex `/.*(?=-)/`, and trim; the empty string when the regex
does not match. -/
def getDate (s : String) : String :=
  match execBeforeDash (collapseWs s.data) with
  | some m => String.mk (wsTrim m)
  | none => ""

/-- `getDate` from `sites/dci-palestine.org.js` (lines 30-37) and from the
puppeteer implementation: same as `getDate` but the cleaning pass also
deletes commas. -/
def getDateDci (s : String) : String :=
  match execBeforeDash (cleanDci s.data) with
  | some m => String.mk (wsTrim m)
  | none => ""

/-- The month names used both by the JavaScript `Date` parser for the
`"MonthName day, year"` format and by the `months` array of the
puppeteer implementation. -/
def months : List String :=
  ["January", "February", "March", "April", "May", "June",
   "July", "August", "September", "October", "November", "December"]

/-- A calendar date. -/
structure CalDate where
  y : Nat
  m : Nat
  d : Nat
deriving DecidableEq, Repr

/-- A strictly monotone numeric key for calendar dates: the embedding of
`Date.prototype.getTime` comparisons (two valid dates at local midnight
compare by `getTime` exactly as their calendar dates compare). -/
def CalDate.key (dt : CalDate) : Nat := dt.y * 10000 + dt.m * 100 + dt.d

def monthIndex? (m : String) : Option Nat := months.indexOf? m

/-- Decimal value of a digit character. -/
def digitVal (c : Char) : Option Nat :=
  if 48 ≤ c.toNat ∧ c.toNat ≤ 57 then some (c.toNat - 48) else none

/-- A non-empty all-digit token's numeric value (`none` otherwise):
the behaviour of numeric parsing on the day/year tokens of the date
field. -/
def digitsToNat : List Char → Option Nat
  | [] => none
  | l => l.foldl
      (fun acc c =>
        match acc, digitVal c with
        | some n, some d => some (n * 10 + d)
        | _, _ => none)
      (some 0)

/-- Modelled from the platform: the JavaScript `new Date(string)`
constructor restricted to the `"MonthName day[,] year"` shape the
listing's date field produces after `getDate`; every other shape is an
Invalid Date (`none`). -/
def jsParseDate (s : String) : Option CalDate :=
  match (splitOnChar ' ' s.data).filter (fun w => w ≠ []) with
  | [mTok, dTok, yTok] =>
    match monthIndex? (String.mk mTok),
          digitsToNat (dTok.filter (fun c => c ≠ ',')),
          digitsToNat yTok with
    | some mi, some d, some y =>
      if 1 ≤ d ∧ d ≤ 31 then some ⟨y, mi + 1, d⟩ else none
    | _, _, _ => none
  | _ => none

/-- `dateObj.getTime() > cutoff.getTime()` with an invalid date giving
`NaN`, and `NaN > t` being `false` in JavaScript. -/
def dateGt (a : Option CalDate) (b : CalDate) : Bool :=
  match a with
  | none => false
  | some dt => dt.key > b.key

/-- `new Date('October 1, 2023')`, the fixed cutoff of the source. -/
def cutoffDate : CalDate := ⟨2023, 10, 1⟩

/-- Truncation of an integer to a 32-bit signed integer: what the
JavaScript `<<` and `&` operators apply to their result. -/
def toInt32 (n : Int) : Int := (n + 2147483648) % 4294967296 - 2147483648

/-- One step of the source's `hash` loop (`docs/index.md` lines 118-126):
`hash = (hash << 5) - hash + char; hash = hash & hash`. -/
def hashStep (h : Int) (c : Nat) : Int := toInt32 (toInt32 (h * 32) - h + c)

/-- The headline hash `hash` of the source: fold of `hashStep` over the
headline's character codes, starting from `0`. -/
def jsHash (s : String) : Int := s.data.foldl (fun h ch => hashStep h ch.toNat) 0

/-- Modelled from the spec: one step of the classic rolling string hash,
`hash_next = hash * 31 + charCode`, truncated to a 32-bit signed
integer. -/
def specHashStep (h : Int) (c : Nat) : Int := toInt32 (h * 31 + c)

/-- Modelled from the spec: the classic rolling multiply-and-add string
hash over the headline's character codes. -/
def specHash (s : String) : Int := s.data.foldl (fun h ch => specHashStep h ch.toNat) 0

/-- `headline.toLowerCase().includes(word)` for one word: substring
containment after lowering the headline. -/
def charsIncludes (l sub : List Char) : Bool :=
  (List.range (l.length + 1)).any (fun i => sub.isPrefixOf (l.drop i))

def strIncludes (s sub : String) : Bool := charsIncludes s.data sub.data

/-- ASCII lower-casing of one character: the action of
`String.prototype.toLowerCase` on the plain-text headlines. -/
def jsToLowerChar (c : Char) : Char :=
  if 65 ≤ c.toNat ∧ c.toNat ≤ 90 then Char.ofNat (c.toNat + 32) else c

def jsToLower (s : String) : String := String.mk (s.data.map jsToLowerChar)

/-- `keywords.some((word) => headline.toLowerCase().includes(word))`
from `getAndStoreArticlesFromLinks`. -/
def keywordMatch (kws : List String) (headline : String) : Bool :=
  kws.any (fun w => strIncludes (jsToLower headline) w)

/-- The hard-coded keyword list of `docs/index.md`. -/
def keywords : List String :=
  ["shoot", "shot", "kill", "murder", "martyr", "fire", "weapon", "dead",
   "died", "death", "injur", "wound", "hurt", "casualt", "fatal", "bomb",
   "explo", "strike", "attack", "viol"]

/-- One `.featured` listing element, abstracted to the three raw strings
the code reads from it: `h3` text (headline), the `date` span's first
text node, and the anchor's `href` attribute. -/
structure RawArticle where
  headline : String
  dateDirty : String
  href : String
deriving DecidableEq, Repr

/-- The `{ link, headline, date }` payload `getDciLinksFromLanding`
accumulates. -/
structure Candidate where
  link : String
  headline : String
  date : String
deriving DecidableEq, Repr

/-- `root.split('/').slice(0, 3).join('/')`. -/
def apex : String := "https://www.dci-palestine.org"

def mkCand (a : RawArticle) : Candidate :=
  ⟨apex ++ a.href, a.headline, getDate a.dateDirty⟩

/-- The per-summary relevance test of `getDciLinksFromLanding`:
`new Date(getDate(dateDirty)).getTime() > new Date('October 1, 2023').getTime()`. -/
def relevantB (a : RawArticle) : Bool :=
  dateGt (jsParseDate (getDate a.dateDirty)) cutoffDate

/-- `getDciLinksFromLanding` from `docs/index.md` (lines 80-113): a
reduce over the parsed listing entries.  A relevant entry is appended to
the accumulator; any other entry is dropped and sets the module-global
`done` flag.  The flag is threaded explicitly: the input `d` is the
global's value on entry, the second component its value on exit. -/
def getDciLinksFromLanding (d : Bool) (arts : List RawArticle) :
    List Candidate × Bool :=
  arts.foldl
    (fun s a => if relevantB a then (s.1 ++ [mkCand a], s.2) else (s.1, true))
    ([], d)

/-- One victim record returned by the extraction capability. -/
structure Victim where
  name : String
  dod : String
  location : String
  age : String
  sex : Option String
deriving DecidableEq, Repr

/-- The JSON object `getAndStoreArticlesFromLinks` writes to
`<dir>/<hash>.json` and also returns per article; `victims = none`
models the JSON `null` written when extraction failed. -/
structure CacheRecord where
  headline : String
  date : String
  link : String
  htmlFile : String
  victims : Option (List Victim)
deriving DecidableEq, Repr

/-- The month name `toLocaleString('default', { month: 'long' })`
renders for a (1-based) month of a valid date. -/
def monthName (m : Nat) : String := months.getD (m - 1) "Invalid Date"

/-- The `${year}/${month}` directory computed from a candidate's date
string; on an unparseable date `getFullYear()` is `NaN` and the month
renders as `Invalid Date`. -/
def dirOf (dateStr : String) : String :=
  match jsParseDate dateStr with
  | some dt => toString dt.y ++ "/" ++ monthName dt.m
  | none => "NaN/Invalid Date"

/-- The path `${dir}/${hashed}.html` of a candidate's raw-content file. -/
def htmlPathOf (c : Candidate) : String :=
  dirOf c.date ++ "/" ++ toString (jsHash c.headline) ++ ".html"

/-- The path `${dir}/${hashed}.json` of a candidate's cache record. -/
def metaKeyOf (c : Candidate) : String :=
  dirOf c.date ++ "/" ++ toString (jsHash c.headline) ++ ".json"

/-- The persisted filesystem state.  `meta` and `htmlFiles` are keyed by
the path strings the code builds; `pageFiles` and `pageResults` are
keyed by the page number (the path `./sources/<domain>/<article>?page=N.html`
resp. `page_N.json` is injective in `N`, so the number stands for the
path).  A cached listing page is stored as its parsed entry list (HTML
parsing is deterministic, so a page's HTML is represented by its
parse). -/
structure FS where
  meta : List (String × CacheRecord)
  htmlFiles : List (String × String)
  pageFiles : List (Nat × List RawArticle)
  pageResults : List (Nat × List CacheRecord)
  aggregate : Option (List CacheRecord)
deriving DecidableEq, Repr

def emptyFS : FS := ⟨[], [], [], [], none⟩

/-- Network / extraction-call counters for one run. -/
structure Stats where
  pageFetches : Nat
  detailFetches : Nat
  pagesProcessed : Nat
deriving DecidableEq, Repr

def stats0 : Stats := ⟨0, 0, 0⟩

/-- The external world: the listing source per page number (`none`
models `fetchHTML` returning the empty string on error/empty body), the
detail page content per link, and the extraction capability applied to
a fetched detail page (`htmlToText` followed by `callClosedAi`; `none`
models every error/malformed-response path, which the caller turns into
`victims = null`). -/
structure Env where
  listing : Nat → Option (List RawArticle)
  detail : String → String
  extract : String → Option (List Victim)

/-- The cached victims visible to the `try` block of
`getAndStoreArticlesFromLinks`: `some` exactly when the record file
exists, parses, and holds a non-null `victims`; every other case
(missing file or `victims` null) throws into the fetch path. -/
def victimsCached (fs : FS) (c : Candidate) : Option (List Victim) :=
  match alookup (metaKeyOf c) fs.meta with
  | some r => r.victims
  | none => none

/-- The two writes of the fetch path: `writeFile(htmlFile, html)` then
`writeFile(metaFile, record)`. -/
def writeArticle (fs : FS) (c : Candidate) (html : String) (r : CacheRecord) : FS :=
  { fs with
    htmlFiles := (htmlPathOf c, html) :: fs.htmlFiles
    meta := (metaKeyOf c, r) :: fs.meta }

def bumpDetail (st : Stats) : Stats := { st with detailFetches := st.detailFetches + 1 }

/-- `getAndStoreArticlesFromLinks` from `docs/index.md` (lines 301-359):
a sequential reduce over the page's candidates.  A candidate whose
headline matches no keyword is skipped.  Otherwise the cache record is
consulted: a record with non-null victims is reused without any fetch or
write; in every other case the detail page is fetched, extraction is
attempted (`none` on failure), and the raw content plus the record are
written before the article is appended to the accumulator.  The keyword
list is a parameter (the module constant `keywords` in the source). -/
def getAndStoreArticlesFromLinks (env : Env) (kws : List String) (fs : FS)
    (st : Stats) (acc : List CacheRecord) :
    List Candidate → List CacheRecord × FS × Stats
  | [] => (acc, fs, st)
  | c :: rest =>
    if keywordMatch kws c.headline then
      match victimsCached fs c with
      | some vs =>
        getAndStoreArticlesFromLinks env kws fs st
          (acc ++ [⟨c.headline, c.date, c.link, htmlPathOf c, some vs⟩]) rest
      | none =>
        let html := env.detail c.link
        let r : CacheRecord := ⟨c.headline, c.date, c.link, htmlPathOf c, env.extract html⟩
        getAndStoreArticlesFromLinks env kws (writeArticle fs c html r)
          (bumpDetail st) (acc ++ [r]) rest
    else getAndStoreArticlesFromLinks env kws fs st acc rest

/-- The value of a run: the returned accumulated article list, the final
filesystem, the counters, and the final value of the `done` flag. -/
structure RunOut where
  results : List CacheRecord
  fs : FS
  stats : Stats
  done : Bool
deriving DecidableEq, Repr

def bumpPage (st : Stats) : Stats := { st with pageFetches := st.pageFetches + 1 }

def bumpProcessed (st : Stats) : Stats :=
  { st with pagesProcessed := st.pagesProcessed + 1 }

/-- The per-page content acquisition of `getArticlesRecursively`:
`readFile` of the cached page file, falling back to `fetchHTML` of
`${source}?page=${page}` (which counts one page fetch; `none` models an
empty response). -/
def fetchPage (env : Env) (fs : FS) (st : Stats) (page : Nat) :
    Option (List RawArticle) × Stats :=
  match alookup page fs.pageFiles with
  | some arts => (some arts, st)
  | none => (env.listing page, bumpPage st)

/-- One page's filter-and-store work: the filtered links of the page fed
to `getAndStoreArticlesFromLinks`. -/
def stepStored (env : Env) (fs : FS) (st0 : Stats) (done : Bool)
    (arts : List RawArticle) : List CacheRecord × FS × Stats :=
  getAndStoreArticlesFromLinks env keywords fs st0 [] (getDciLinksFromLanding done arts).1

/-- The filesystem after one processed page: the store step's
filesystem plus the page-result file and the page file. -/
def stepFS (env : Env) (fs : FS) (st0 : Stats) (done : Bool) (page : Nat)
    (arts : List RawArticle) : FS :=
  { (stepStored env fs st0 done arts).2.1 with
    pageResults := (page, (stepStored env fs st0 done arts).1)
      :: (stepStored env fs st0 done arts).2.1.pageResults
    pageFiles := (page, arts) :: (stepStored env fs st0 done arts).2.1.pageFiles }

/-- `getArticlesRecursively` from `docs/index.md` (lines 373-419).
While the `done` flag is unset and the page number is within the `stop`
limit: take the listing page from the page-file cache, else fetch it
(`none` = empty content).  Empty content returns the accumulator as-is.
Otherwise the page is filtered, its articles fetched/stored, the page
result and the page file are written, and the run recurses on the next
page.  When the flag is set or the limit is exceeded, the aggregate
`all.json` is written and the accumulator returned. -/
def getArticlesRecursively (env : Env) (fs : FS) (st : Stats) (done : Bool)
    (page stop : Nat) (acc : List CacheRecord) : RunOut :=
  if _h : done = false ∧ page ≤ stop then
    match fetchPage env fs st page with
    | (some arts, st0) =>
      getArticlesRecursively env (stepFS env fs st0 done page arts)
        (bumpProcessed (stepStored env fs st0 done arts).2.2)
        (getDciLinksFromLanding done arts).2
        (page + 1) stop (acc ++ (stepStored env fs st0 done arts).1)
    | (none, st0) => ⟨acc, fs, st0, done⟩
  else
    ⟨acc, { fs with aggregate := some acc }, st, done⟩
termination_by stop + 1 - page
decreasing_by omega

/-- One payload collected by `grab` in the puppeteer implementation:
the raw `date_string`, the headline, and the link. -/
structure GrabEntry where
  date_string : String
  headline : String
  link : String
deriving DecidableEq, Repr

/-- The per-entry filter of `grab` (`src/unnamed/part_001` lines
105-116): extract the date with the comma-removing `getDate`, split it
on spaces, numerically parse the year token, and keep the entry when
`yearInt > 2023 || (yearInt === 2023 && months.indexOf(month) > 8)`
(`parseInt(undefined)` is `NaN`, and every `NaN` comparison is false;
`indexOf` of an unknown month is `-1`). -/
def grabKeep (dateStr : String) : Bool :=
  let date := getDateDci dateStr
  let parts := (splitOnChar ' ' date.data).map String.mk
  let month := parts.getD 0 ""
  match digitsToNat (parts.getD 2 "").data with
  | none => false
  | some y =>
    y > 2023 ||
      (y == 2023 &&
        (match monthIndex? month with
         | some i => decide (i > 8)
         | none => false))

/-- The reduce over `grab`'s payloads: kept entries are accumulated as
`(headline, link, date)`; a dropped entry is simply skipped — `grab`
has no stop flag at all. -/
def grabFilter (l : List GrabEntry) : List (String × String × String) :=
  l.foldl
    (fun acc e =>
      if grabKeep e.date_string then
        acc ++ [(e.headline, e.link, getDateDci e.date_string)]
      else acc)
    []

/-- `names.join(' ')`. -/
def joinWithSpace : List String → String
  | [] => ""
  | [s] => s
  | s :: rest => s ++ " " ++ joinWithSpace rest

/-- `getNameVariations` of the per-name search CLI
(`src/unnamed/part_001` lines 153-163): split the full name on spaces;
a single-part name yields just itself, otherwise the last name, the
last two names, first-and-last, the first name, and the full name. -/
def getNameVariations (fullName : String) : List String :=
  let names := (splitOnChar ' ' fullName.data).map String.mk
  if names.length = 1 then [fullName]
  else
    [names.getD (names.length - 1) "",
     joinWithSpace (names.drop (names.length - 2)),
     names.getD 0 "" ++ " " ++ names.getD (names.length - 1) "",
     names.getD 0 "",
     fullName]

/-- Modelled from the spec's words for comparison with `getDate`: take
the text of the (whitespace-collapsed) date field up to the FIRST
separator, trimmed. -/
def specFirstSepDate (s : String) : String :=
  String.mk (wsTrim ((collapseWs s.data).takeWhile (fun c => c ≠ '-')))

/-- The candidates a page's entries produce: exactly the entries whose
date parses and lies strictly after the cutoff, in page order. -/
def candidatesOf (arts : List RawArticle) : List Candidate :=
  arts.filterMap (fun a => if relevantB a then some (mkCand a) else none)

/-- The entries `grabFilter` keeps, as a filterMap. -/
def grabKept (l : List GrabEntry) : List (String × String × String) :=
  l.filterMap (fun e =>
    if grabKeep e.date_string then
      some (e.headline, e.link, getDateDci e.date_string)
    else none)

/-- The victims a metadata association list holds for a candidate's
cache key. -/
def optVictims (m : List (String × CacheRecord)) (c : Candidate) : Option (List Victim) :=
  match alookup (metaKeyOf c) m with
  | some r => r.victims
  | none => none

/-- Every record in the metadata list has a non-null extraction
result. -/
def goodMeta (m : List (String × CacheRecord)) : Prop :=
  ∀ k r, alookup k m = some r → r.victims ≠ none

/-- Lookup-preservation between two metadata lists. -/
def metaLe (m m' : List (String × CacheRecord)) : Prop :=
  ∀ k r, alookup k m = some r → alookup k m' = some r

/-- The output the store step produces when every needed record is
already cached: each keyword-matching candidate turns into its cached
entry, in order. -/
def replayOutputs (m : List (String × CacheRecord)) (kws : List String)
    (links : List Candidate) : List CacheRecord :=
  links.filterMap (fun c =>
    if keywordMatch kws c.headline then
      some ⟨c.headline, c.date, c.link, htmlPathOf c, optVictims m c⟩
    else none)

/-- A detail-only environment whose extraction always fails: used to
exercise the soft-failure path on a concrete input. -/
def c7Env : Env := ⟨fun _ => none, fun _ => "RAW", fun _ => none⟩

/-- A concrete keyword-matching candidate dated after the cutoff. -/
def c7Cand : Candidate := ⟨"https://x/a", "Boy killed in strike", "January 5, 2024"⟩

/-- An environment whose extraction succeeds with a record naming the
fetched content: makes the origin of each cached value observable. -/
def c9Env : Env :=
  ⟨fun _ => none, fun l => "RAW:" ++ l, fun h => some [⟨h, "dod", "loc", "7", none⟩]⟩

def c9CandA : Candidate := ⟨"https://x/a", "Boy killed in strike", "January 5, 2024"⟩

/-- Same headline and date as `c9CandA`, different detail link. -/
def c9CandB : Candidate := ⟨"https://x/b", "Boy killed in strike", "January 5, 2024"⟩

/-- A one-page listing whose single relevant article always fails
extraction. -/
def ceEnv : Env :=
  ⟨fun p => if p = 1 then
      some [⟨"Boy killed in strike", "January 5, 2024 - Location: Gaza", "/new"⟩]
    else none,
   fun _ => "HTML", fun _ => none⟩

def ceArt : RawArticle :=
  ⟨"Boy killed in strike", "January 5, 2024 - Location: Gaza", "/new"⟩

/-- The cache record the first `ceEnv` run writes: extraction failed, so
`victims` is null. -/
def ceRec : CacheRecord :=
  ⟨"Boy killed in strike", "January 5, 2024", "https://www.dci-palestine.org/new",
   "2024/January/-2069810402.html", none⟩

/-- The filesystem a first `ceEnv` run leaves behind. -/
def ceR1fs : FS :=
  ⟨[("2024/January/-2069810402.json", ceRec)],
   [("2024/January/-2069810402.html", "HTML")],
   [(1, [ceArt])],
   [(1, [ceRec])],
   some [ceRec]⟩

/-- A one-page listing with one relevant article and an
always-succeeding extractor. -/
def c2wEnv : Env :=
  ⟨fun p => if p = 1 then
      some [⟨"Boy killed in strike", "January 5, 2024 - L", "/new"⟩]
    else none,
   fun l => "RAW:" ++ l, fun h => some [⟨h, "dod", "loc", "7", none⟩]⟩

@[simp] theorem alookup_nil {α β : Type} [DecidableEq α] (k : α) :
    alookup (β := β) k [] = none := rfl

@[simp] theorem alookup_cons {α β : Type} [DecidableEq α] (k k' : α) (v : β) (es) :
    alookup k ((k', v) :: es) = if k' = k then some v else alookup k es := rfl

theorem splitOnChar_ne_nil (sep : Char) (l : List Char) : splitOnChar sep l ≠ [] := by
  cases l with
  | nil => simp [splitOnChar]
  | cons c cs =>
    simp only [splitOnChar]
    cases h : splitOnChar sep cs with
    | nil => simp
    | cons w ws =>
      by_cases hc : c = sep <;> simp [hc]

theorem toInt32_emod (n : Int) : toInt32 n % 4294967296 = n % 4294967296 := by
  unfold toInt32; omega

theorem toInt32_congr {n m : Int} (h : n % 4294967296 = m % 4294967296) :
    toInt32 n = toInt32 m := by
  unfold toInt32; omega

theorem hashStep_eq_specHashStep (h : Int) (c : Nat) : hashStep h c = specHashStep h c := by
  unfold hashStep specHashStep
  refine toInt32_congr ?_
  have h32 := toInt32_emod (h * 32)
  omega

theorem landing_foldl (arts : List RawArticle) :
    ∀ (acc : List Candidate) (d : Bool),
      arts.foldl
        (fun s a => if relevantB a then (s.1 ++ [mkCand a], s.2) else (s.1, true))
        (acc, d)
        = (acc ++ candidatesOf arts, d || arts.any (fun a => !relevantB a)) := by
  induction arts with
  | nil => intro acc d; simp [candidatesOf]
  | cons a arts ih =>
    intro acc d
    by_cases h : relevantB a
    · simp [List.foldl_cons, h, ih, candidatesOf]
    · simp [List.foldl_cons, h, ih, candidatesOf]

theorem landing_char (d : Bool) (arts : List RawArticle) :
    getDciLinksFromLanding d arts
      = (candidatesOf arts, d || arts.any (fun a => !relevantB a)) := by
  unfold getDciLinksFromLanding
  exact landing_foldl arts [] d

theorem relevantB_of_unparseable {a : RawArticle}
    (h : jsParseDate (getDate a.dateDirty) = none) : relevantB a = false := by
  unfold relevantB dateGt
  rw [h]

theorem grabFilter_foldl (l : List GrabEntry) :
    ∀ acc : List (String × String × String),
      l.foldl
        (fun acc e =>
          if grabKeep e.date_string then
            acc ++ [(e.headline, e.link, getDateDci e.date_string)]
          else acc)
        acc
        = acc ++ grabKept l := by
  induction l with
  | nil => intro acc; simp [grabKept]
  | cons e l ih =>
    intro acc
    by_cases h : grabKeep e.date_string
    · simp [List.foldl_cons, h, ih, grabKept]
    · simp [List.foldl_cons, h, ih, grabKept]

theorem grabFilter_char (l : List GrabEntry) : grabFilter l = grabKept l := by
  unfold grabFilter
  simpa using grabFilter_foldl l []

theorem grabKeep_of_empty {s : String} (h : getDateDci s = "") :
    grabKeep s = false := by
  unfold grabKeep
  rw [h]
  rfl

theorem foldl_hashStep_eq (l : List Char) :
    ∀ h : Int,
      l.foldl (fun h ch => hashStep h ch.toNat) h
        = l.foldl (fun h ch => specHashStep h ch.toNat) h := by
  induction l with
  | nil => intro h; rfl
  | cons c cs ih =>
    intro h
    simp only [List.foldl_cons, hashStep_eq_specHashStep, ih]

theorem splitOnChar_of_not_mem {sep : Char} :
    ∀ {l : List Char}, (∀ c ∈ l, c ≠ sep) → splitOnChar sep l = [l] := by
  intro l
  induction l with
  | nil => intro _; rfl
  | cons c cs ih =>
    intro h
    have hc : c ≠ sep := h c (by simp)
    have := ih (fun x hx => h x (by simp [hx]))
    simp [splitOnChar, this, hc]

theorem string_mk_data (s : String) : String.mk s.data = s := rfl

theorem victimsCached_def (fs : FS) (c : Candidate) :
    victimsCached fs c = optVictims fs.meta c := rfl

theorem metaLe_refl (m : List (String × CacheRecord)) : metaLe m m := fun _ _ h => h

theorem metaLe_trans {a b c : List (String × CacheRecord)}
    (h1 : metaLe a b) (h2 : metaLe b c) : metaLe a c :=
  fun k r h => h2 k r (h1 k r h)

theorem optVictims_mono {m m' : List (String × CacheRecord)} {c : Candidate}
    {vs : List Victim} (hle : metaLe m m') (h : optVictims m c = some vs) :
    optVictims m' c = some vs := by
  unfold optVictims at h ⊢
  cases hl : alookup (metaKeyOf c) m with
  | none => rw [hl] at h; cases h
  | some r =>
    rw [hl] at h
    rw [hle _ _ hl]
    exact h

theorem alookup_none_of_goodMeta {m : List (String × CacheRecord)} {c : Candidate}
    (hg : goodMeta m) (h : optVictims m c = none) :
    alookup (metaKeyOf c) m = none := by
  unfold optVictims at h
  cases hl : alookup (metaKeyOf c) m with
  | none => rfl
  | some r =>
    rw [hl] at h
    exact absurd h (hg _ _ hl)

/-- Replay: when every keyword-matching candidate already has a cached
record with non-null victims, the store step performs no fetch and no
write — the filesystem and the counters are returned unchanged, and the
outputs are read off the cache. -/
theorem gas_replay (env : Env) (kws : List String) (fs : FS) (st : Stats) :
    ∀ (links : List Candidate) (acc : List CacheRecord),
      (∀ c ∈ links, keywordMatch kws c.headline = true →
        ∃ vs, victimsCached fs c = some vs) →
      getAndStoreArticlesFromLinks env kws fs st acc links
        = (acc ++ replayOutputs fs.meta kws links, fs, st) := by
  intro links
  induction links with
  | nil => intro acc _; simp [getAndStoreArticlesFromLinks, replayOutputs]
  | cons c rest ih =>
    intro acc h
    by_cases hk : keywordMatch kws c.headline
    · obtain ⟨vs, hvs⟩ := h c (by simp) hk
      rw [victimsCached_def] at hvs
      simp only [getAndStoreArticlesFromLinks, hk, if_true, victimsCached_def, hvs]
      rw [ih _ (fun c' hc' hk' => h c' (by simp [hc']) hk')]
      simp [replayOutputs, hk, hvs]
    · simp only [getAndStoreArticlesFromLinks, hk, if_false]
      rw [ih _ (fun c' hc' hk' => h c' (by simp [hc']) hk')]
      simp [replayOutputs, hk]

/-- First pass: with an always-succeeding extractor and a cache whose
records all have non-null victims, the store step (a) keeps that cache
invariant, (b) never overwrites an existing record, (c) produces outputs
that can be read off any later cache extending its final one, and
(d) leaves every keyword-matching candidate cached with non-null
victims; page files, page results and the aggregate are untouched. -/
theorem gas_first (env : Env) (kws : List String)
    (hext : ∀ s, env.extract s ≠ none) :
    ∀ (links : List Candidate) (fs : FS) (st : Stats) (acc : List CacheRecord),
      goodMeta fs.meta →
      goodMeta (getAndStoreArticlesFromLinks env kws fs st acc links).2.1.meta ∧
      metaLe fs.meta (getAndStoreArticlesFromLinks env kws fs st acc links).2.1.meta ∧
      (∀ M, metaLe (getAndStoreArticlesFromLinks env kws fs st acc links).2.1.meta M →
        (getAndStoreArticlesFromLinks env kws fs st acc links).1
          = acc ++ replayOutputs M kws links) ∧
      (∀ c ∈ links, keywordMatch kws c.headline = true →
        ∃ vs, victimsCached (getAndStoreArticlesFromLinks env kws fs st acc links).2.1 c
          = some vs) ∧
      (getAndStoreArticlesFromLinks env kws fs st acc links).2.1.pageFiles = fs.pageFiles ∧
      (getAndStoreArticlesFromLinks env kws fs st acc links).2.1.pageResults = fs.pageResults ∧
      (getAndStoreArticlesFromLinks env kws fs st acc links).2.1.aggregate = fs.aggregate := by
  intro links
  induction links with
  | nil =>
    intro fs st acc hg
    refine ⟨hg, metaLe_refl _, ?_, ?_, rfl, rfl, rfl⟩
    · intro M _; simp [getAndStoreArticlesFromLinks, replayOutputs]
    · intro c hc; cases hc
  | cons c rest ih =>
    intro fs st acc hg
    by_cases hk : keywordMatch kws c.headline
    · cases hvc : victimsCached fs c with
      | some vs =>
        -- cache hit: reuse, no write
        have heq : getAndStoreArticlesFromLinks env kws fs st acc (c :: rest)
            = getAndStoreArticlesFromLinks env kws fs st
                (acc ++ [⟨c.headline, c.date, c.link, htmlPathOf c, some vs⟩]) rest := by
          simp [getAndStoreArticlesFromLinks, hk, hvc]
        rw [heq]
        obtain ⟨hg', hle, hout, hcached, hpf, hpr, hag⟩ := ih fs st _ hg
        refine ⟨hg', hle, ?_, ?_, hpf, hpr, hag⟩
        · intro M hM
          rw [hout M hM]
          have : optVictims M c = some vs :=
            optVictims_mono (metaLe_trans hle hM)
              (by rw [← victimsCached_def]; exact hvc)
          simp [replayOutputs, hk, this]
        · intro c' hc' hk'
          rcases List.mem_cons.mp hc' with hc' | hc'
          · subst hc'
            exact ⟨vs, by
              rw [victimsCached_def]
              exact optVictims_mono hle (by rw [← victimsCached_def]; exact hvc)⟩
          · exact hcached c' hc' hk'
      | none =>
        -- cache miss (or null victims): fetch, extract, write
        have hnone : alookup (metaKeyOf c) fs.meta = none :=
          alookup_none_of_goodMeta hg (by rw [← victimsCached_def]; exact hvc)
        obtain ⟨vs0, hvs0⟩ : ∃ vs0, env.extract (env.detail c.link) = some vs0 := by
          cases hx : env.extract (env.detail c.link) with
          | none => exact absurd hx (hext _)
          | some v => exact ⟨v, rfl⟩
        have heq : getAndStoreArticlesFromLinks env kws fs st acc (c :: rest)
            = getAndStoreArticlesFromLinks env kws
                (writeArticle fs c (env.detail c.link)
                  ⟨c.headline, c.date, c.link, htmlPathOf c, env.extract (env.detail c.link)⟩)
                (bumpDetail st)
                (acc ++ [⟨c.headline, c.date, c.link, htmlPathOf c,
                  env.extract (env.detail c.link)⟩]) rest := by
          simp [getAndStoreArticlesFromLinks, hk, hvc]
        rw [heq]
        have hgW : goodMeta (writeArticle fs c (env.detail c.link)
            ⟨c.headline, c.date, c.link, htmlPathOf c,
              env.extract (env.detail c.link)⟩).meta := by
          intro k r hkr
          simp only [writeArticle, alookup_cons] at hkr
          by_cases hkey : metaKeyOf c = k
          · rw [if_pos hkey] at hkr
            cases hkr
            simp [hvs0]
          · rw [if_neg hkey] at hkr
            exact hg _ _ hkr
        have hleW : metaLe fs.meta (writeArticle fs c (env.detail c.link)
            ⟨c.headline, c.date, c.link, htmlPathOf c,
              env.extract (env.detail c.link)⟩).meta := by
          intro k r hkr
          simp only [writeArticle, alookup_cons]
          by_cases hkey : metaKeyOf c = k
          · subst hkey; rw [hnone] at hkr; cases hkr
          · rw [if_neg hkey]; exact hkr
        have hhitW : optVictims (writeArticle fs c (env.detail c.link)
            ⟨c.headline, c.date, c.link, htmlPathOf c,
              env.extract (env.detail c.link)⟩).meta c = some vs0 := by
          simp [optVictims, writeArticle, alookup_cons, hvs0]
        obtain ⟨hg', hle, hout, hcached, hpf, hpr, hag⟩ := ih _ (bumpDetail st) _ hgW
        refine ⟨hg', metaLe_trans hleW hle, ?_, ?_, ?_, ?_, ?_⟩
        · intro M hM
          rw [hout M hM]
          have : optVictims M c = some vs0 :=
            optVictims_mono (metaLe_trans hle hM) hhitW
          simp [replayOutputs, hk, this, hvs0]
        · intro c' hc' hk'
          rcases List.mem_cons.mp hc' with hc' | hc'
          · subst hc'
            exact ⟨vs0, by rw [victimsCached_def]; exact optVictims_mono hle hhitW⟩
          · exact hcached c' hc' hk'
        · rw [hpf]; rfl
        · rw [hpr]; rfl
        · rw [hag]; rfl
    · have heq : getAndStoreArticlesFromLinks env kws fs st acc (c :: rest)
          = getAndStoreArticlesFromLinks env kws fs st acc rest := by
        simp [getAndStoreArticlesFromLinks, hk]
      rw [heq]
      obtain ⟨hg', hle, hout, hcached, hpf, hpr, hag⟩ := ih fs st acc hg
      refine ⟨hg', hle, ?_, ?_, hpf, hpr, hag⟩
      · intro M hM
        rw [hout M hM]
        simp [replayOutputs, hk]
      · intro c' hc' hk'
        rcases List.mem_cons.mp hc' with hc' | hc'
        · subst hc'; exact absurd hk' (by simpa using hk)
        · exact hcached c' hc' hk'

theorem run_stop (env : Env) (fs : FS) (st : Stats) (done : Bool)
    (page stop : Nat) (acc : List CacheRecord)
    (h : ¬(done = false ∧ page ≤ stop)) :
    getArticlesRecursively env fs st done page stop acc
      = ⟨acc, { fs with aggregate := some acc }, st, done⟩ := by
  rw [getArticlesRecursively]
  exact dif_neg h

theorem run_some (env : Env) (fs : FS) (st st0 : Stats) (done : Bool)
    (page stop : Nat) (acc : List CacheRecord) (arts : List RawArticle)
    (h1 : done = false) (h2 : page ≤ stop)
    (hf : fetchPage env fs st page = (some arts, st0)) :
    getArticlesRecursively env fs st done page stop acc
      = getArticlesRecursively env (stepFS env fs st0 done page arts)
          (bumpProcessed (stepStored env fs st0 done arts).2.2)
          (getDciLinksFromLanding done arts).2
          (page + 1) stop (acc ++ (stepStored env fs st0 done arts).1) := by
  rw [getArticlesRecursively]
  rw [dif_pos ⟨h1, h2⟩]
  rw [hf]

theorem run_none (env : Env) (fs : FS) (st st0 : Stats) (done : Bool)
    (page stop : Nat) (acc : List CacheRecord)
    (h1 : done = false) (h2 : page ≤ stop)
    (hf : fetchPage env fs st page = (none, st0)) :
    getArticlesRecursively env fs st done page stop acc = ⟨acc, fs, st0, done⟩ := by
  rw [getArticlesRecursively]
  rw [dif_pos ⟨h1, h2⟩]
  rw [hf]

theorem fetchPage_arts {env : Env} {fs : FS} {st st0 : Stats} {page : Nat}
    {arts v : List RawArticle} (hf : fetchPage env fs st page = (some arts, st0))
    (hkv : alookup page fs.pageFiles = some v) : arts = v := by
  unfold fetchPage at hf
  rw [hkv] at hf
  cases hf
  rfl

theorem fetchPage_pagesProcessed (env : Env) (fs : FS) (st : Stats) (page : Nat) :
    (fetchPage env fs st page).2.pagesProcessed = st.pagesProcessed := by
  unfold fetchPage
  cases alookup page fs.pageFiles <;> rfl

theorem fetchPage_detailFetches (env : Env) (fs : FS) (st : Stats) (page : Nat) :
    (fetchPage env fs st page).2.detailFetches = st.detailFetches := by
  unfold fetchPage
  cases alookup page fs.pageFiles <;> rfl

/-- The store step touches only the detail-fetch counter. -/
theorem gas_stats (env : Env) (kws : List String) :
    ∀ (links : List Candidate) (fs : FS) (st : Stats) (acc : List CacheRecord),
      (getAndStoreArticlesFromLinks env kws fs st acc links).2.2.pagesProcessed
          = st.pagesProcessed ∧
      (getAndStoreArticlesFromLinks env kws fs st acc links).2.2.pageFetches
          = st.pageFetches := by
  intro links
  induction links with
  | nil => intro fs st acc; exact ⟨rfl, rfl⟩
  | cons c rest ih =>
    intro fs st acc
    by_cases hk : keywordMatch kws c.headline
    · cases hvc : victimsCached fs c with
      | some vs => simpa [getAndStoreArticlesFromLinks, hk, hvc] using ih fs st _
      | none => simpa [getAndStoreArticlesFromLinks, hk, hvc, bumpDetail] using ih _ _ _
    · simpa [getAndStoreArticlesFromLinks, hk] using ih fs st acc

/-- A run only grows the cache: record lookups and page-file lookups
present on entry are still present, with the same values, in the final
filesystem (given an always-succeeding extractor and a healthy cache,
under which no record is ever overwritten). -/
theorem run_mono (env : Env) (hext : ∀ s, env.extract s ≠ none) (stop : Nat) :
    ∀ (n : Nat), ∀ (page : Nat) (fs : FS) (st : Stats) (done : Bool)
      (acc : List CacheRecord),
      stop + 1 - page ≤ n →
      goodMeta fs.meta →
      goodMeta (getArticlesRecursively env fs st done page stop acc).fs.meta ∧
      metaLe fs.meta (getArticlesRecursively env fs st done page stop acc).fs.meta ∧
      (∀ k v, alookup k fs.pageFiles = some v →
        alookup k (getArticlesRecursively env fs st done page stop acc).fs.pageFiles
          = some v) := by
  intro n
  induction n with
  | zero =>
    intro page fs st done acc hb hg
    have hstop : ¬(done = false ∧ page ≤ stop) := by
      intro ⟨_, hle⟩; omega
    rw [run_stop env fs st done page stop acc hstop]
    exact ⟨hg, metaLe_refl _, fun _ _ h => h⟩
  | succ n ih =>
    intro page fs st done acc hb hg
    by_cases hcond : done = false ∧ page ≤ stop
    · obtain ⟨h1, h2⟩ := hcond
      rcases hf : fetchPage env fs st page with ⟨content, st0⟩
      cases content with
      | none =>
        rw [run_none env fs st st0 done page stop acc h1 h2 hf]
        exact ⟨hg, metaLe_refl _, fun _ _ h => h⟩
      | some arts =>
        rw [run_some env fs st st0 done page stop acc arts h1 h2 hf]
        obtain ⟨hg2, hle2, _, _, hpf2, _, _⟩ :=
          gas_first env keywords hext (getDciLinksFromLanding done arts).1 fs st0 [] hg
        obtain ⟨ha, hble, hcpf⟩ := ih (page + 1) (stepFS env fs st0 done page arts)
          (bumpProcessed (stepStored env fs st0 done arts).2.2)
          (getDciLinksFromLanding done arts).2
          (acc ++ (stepStored env fs st0 done arts).1) (by omega) hg2
        refine ⟨ha, metaLe_trans hle2 hble, ?_⟩
        intro k v hkv
        apply hcpf
        show alookup k ((page, arts)
            :: (getAndStoreArticlesFromLinks env keywords fs st0 []
                  (getDciLinksFromLanding done arts).1).2.1.pageFiles)
          = some v
        rw [alookup_cons]
        by_cases hk : page = k
        · subst hk
          rw [if_pos rfl, fetchPage_arts hf hkv]
        · rw [if_neg hk, hpf2]
          exact hkv
    · rw [run_stop env fs st done page stop acc hcond]
      exact ⟨hg, metaLe_refl _, fun _ _ h => h⟩

/-- A run started at page `page` processes at most `stop + 1 - page`
pages. -/
theorem run_pages_bound (env : Env) (stop : Nat) :
    ∀ (n : Nat), ∀ (page : Nat) (fs : FS) (st : Stats) (done : Bool)
      (acc : List CacheRecord),
      stop + 1 - page ≤ n →
      (getArticlesRecursively env fs st done page stop acc).stats.pagesProcessed
        ≤ st.pagesProcessed + (stop + 1 - page) := by
  intro n
  induction n with
  | zero =>
    intro page fs st done acc hb
    have hstop : ¬(done = false ∧ page ≤ stop) := by
      intro ⟨_, hle⟩; omega
    rw [run_stop env fs st done page stop acc hstop]
    exact Nat.le_add_right _ _
  | succ n ih =>
    intro page fs st done acc hb
    by_cases hcond : done = false ∧ page ≤ stop
    · obtain ⟨h1, h2⟩ := hcond
      rcases hf : fetchPage env fs st page with ⟨content, st0⟩
      cases content with
      | none =>
        rw [run_none env fs st st0 done page stop acc h1 h2 hf]
        have : st0.pagesProcessed = st.pagesProcessed := by
          have := fetchPage_pagesProcessed env fs st page
          rw [hf] at this
          exact this
        simp only [this]
        exact Nat.le_add_right _ _
      | some arts =>
        rw [run_some env fs st st0 done page stop acc arts h1 h2 hf]
        have hrec := ih (page + 1) (stepFS env fs st0 done page arts)
          (bumpProcessed (stepStored env fs st0 done arts).2.2)
          (getDciLinksFromLanding done arts).2
          (acc ++ (stepStored env fs st0 done arts).1) (by omega)
        have hst0 : st0.pagesProcessed = st.pagesProcessed := by
          have := fetchPage_pagesProcessed env fs st page
          rw [hf] at this
          exact this
        have hgs : (stepStored env fs st0 done arts).2.2.pagesProcessed
            = st0.pagesProcessed :=
          (gas_stats env keywords (getDciLinksFromLanding done arts).1 fs st0 []).1
        have hbump : (bumpProcessed (stepStored env fs st0 done arts).2.2).pagesProcessed
            = st0.pagesProcessed + 1 := by
          rw [bumpProcessed, hgs]
        rw [hbump, hst0] at hrec
        omega
    · rw [run_stop env fs st done page stop acc hcond]
      exact Nat.le_add_right _ _

/-- Replay simulation: a run started against the final filesystem of a
previous run (same environment, always-succeeding extractor) follows the
same pages and the same candidates, performs not a single detail fetch,
and returns the same results and the same aggregate. -/
theorem run_replay (env : Env) (hext : ∀ s, env.extract s ≠ none) (stop : Nat) :
    ∀ (n : Nat), ∀ (page : Nat) (done : Bool) (acc : List CacheRecord)
      (fs1 : FS) (st1 : Stats) (fs2 : FS) (st2 : Stats),
      stop + 1 - page ≤ n →
      goodMeta fs1.meta →
      fs2.meta = (getArticlesRecursively env fs1 st1 done page stop acc).fs.meta →
      (∀ k, alookup k fs2.pageFiles
        = alookup k (getArticlesRecursively env fs1 st1 done page stop acc).fs.pageFiles) →
      fs2.aggregate = (getArticlesRecursively env fs1 st1 done page stop acc).fs.aggregate →
      (getArticlesRecursively env fs2 st2 done page stop acc).results
          = (getArticlesRecursively env fs1 st1 done page stop acc).results ∧
      (getArticlesRecursively env fs2 st2 done page stop acc).stats.detailFetches
          = st2.detailFetches ∧
      (getArticlesRecursively env fs2 st2 done page stop acc).fs.aggregate
          = (getArticlesRecursively env fs1 st1 done page stop acc).fs.aggregate := by
  intro n
  induction n with
  | zero =>
    intro page done acc fs1 st1 fs2 st2 hb hg H2 H3 H4
    have hstop : ¬(done = false ∧ page ≤ stop) := by
      intro ⟨_, hle⟩; omega
    rw [run_stop env fs1 st1 done page stop acc hstop]
    rw [run_stop env fs2 st2 done page stop acc hstop]
    exact ⟨rfl, rfl, rfl⟩
  | succ n ih =>
    intro page done acc fs1 st1 fs2 st2 hb hg H2 H3 H4
    by_cases hcond : done = false ∧ page ≤ stop
    · obtain ⟨h1, h2⟩ := hcond
      rcases hf : fetchPage env fs1 st1 page with ⟨content, st0⟩
      cases content with
      | none =>
        rw [run_none env fs1 st1 st0 done page stop acc h1 h2 hf] at H2 H3 H4
        have hl1 : alookup page fs1.pageFiles = none := by
          unfold fetchPage at hf
          cases hl : alookup page fs1.pageFiles with
          | none => rfl
          | some a => rw [hl] at hf; cases hf
        have hlist : env.listing page = none := by
          unfold fetchPage at hf
          rw [hl1] at hf
          injection hf with hfa hfb
        have hf2 : fetchPage env fs2 st2 page = (none, bumpPage st2) := by
          unfold fetchPage
          rw [H3 page, hl1, hlist]
        rw [run_none env fs2 st2 (bumpPage st2) done page stop acc h1 h2 hf2]
        rw [run_none env fs1 st1 st0 done page stop acc h1 h2 hf]
        exact ⟨rfl, rfl, H4⟩
      | some arts =>
        rw [run_some env fs1 st1 st0 done page stop acc arts h1 h2 hf] at H2 H3 H4 ⊢
        obtain ⟨hg2, hle2, hout1, hcached1, hpf1, _, _⟩ :=
          gas_first env keywords hext (getDciLinksFromLanding done arts).1 fs1 st0 [] hg
        obtain ⟨_, hmle, hmpf⟩ := run_mono env hext stop (stop + 1 - (page + 1)) (page + 1)
          (stepFS env fs1 st0 done page arts)
          (bumpProcessed (stepStored env fs1 st0 done arts).2.2)
          (getDciLinksFromLanding done arts).2
          (acc ++ (stepStored env fs1 st0 done arts).1) (Nat.le_refl _) hg2
        have hpg : alookup page
            (getArticlesRecursively env (stepFS env fs1 st0 done page arts)
              (bumpProcessed (stepStored env fs1 st0 done arts).2.2)
              (getDciLinksFromLanding done arts).2
              (page + 1) stop
              (acc ++ (stepStored env fs1 st0 done arts).1)).fs.pageFiles
            = some arts := by
          apply hmpf
          show alookup page ((page, arts)
              :: (getAndStoreArticlesFromLinks env keywords fs1 st0 []
                    (getDciLinksFromLanding done arts).1).2.1.pageFiles)
            = some arts
          rw [alookup_cons, if_pos rfl]
        have hf2 : fetchPage env fs2 st2 page = (some arts, st2) := by
          unfold fetchPage
          rw [H3 page, hpg]
        have hrep : ∀ c ∈ (getDciLinksFromLanding done arts).1,
            keywordMatch keywords c.headline = true →
            ∃ vs, victimsCached fs2 c = some vs := by
          intro c hc hk
          obtain ⟨vs, hvs⟩ := hcached1 c hc hk
          refine ⟨vs, ?_⟩
          rw [victimsCached_def, H2]
          rw [victimsCached_def] at hvs
          exact optVictims_mono hmle hvs
        have hstored2 : stepStored env fs2 st2 done arts
            = ([] ++ replayOutputs fs2.meta keywords (getDciLinksFromLanding done arts).1,
               fs2, st2) :=
          gas_replay env keywords fs2 st2 (getDciLinksFromLanding done arts).1 [] hrep
        have hart1 : (stepStored env fs1 st0 done arts).1
            = replayOutputs
                (getArticlesRecursively env (stepFS env fs1 st0 done page arts)
                  (bumpProcessed (stepStored env fs1 st0 done arts).2.2)
                  (getDciLinksFromLanding done arts).2
                  (page + 1) stop
                  (acc ++ (stepStored env fs1 st0 done arts).1)).fs.meta
                keywords (getDciLinksFromLanding done arts).1 := by
          have := hout1 _ hmle
          simpa using this
        have hart21 : (stepStored env fs2 st2 done arts).1
            = (stepStored env fs1 st0 done arts).1 := by
          rw [hstored2, hart1]
          simp [H2]
        rw [run_some env fs2 st2 st2 done page stop acc arts h1 h2 hf2]
        rw [hart21]
        have hdf : (bumpProcessed (stepStored env fs2 st2 done arts).2.2).detailFetches
            = st2.detailFetches := by
          rw [hstored2]
          rfl
        have hA : (stepFS env fs2 st2 done page arts).meta = fs2.meta := by
          show (stepStored env fs2 st2 done arts).2.1.meta = fs2.meta
          rw [hstored2]
        have hB : (stepFS env fs2 st2 done page arts).pageFiles
            = (page, arts) :: fs2.pageFiles := by
          show (page, arts) :: (stepStored env fs2 st2 done arts).2.1.pageFiles
            = (page, arts) :: fs2.pageFiles
          rw [hstored2]
        have hC : (stepFS env fs2 st2 done page arts).aggregate = fs2.aggregate := by
          show (stepStored env fs2 st2 done arts).2.1.aggregate = fs2.aggregate
          rw [hstored2]
        obtain ⟨hr1, hr2, hr3⟩ := ih (page + 1) (getDciLinksFromLanding done arts).2
          (acc ++ (stepStored env fs1 st0 done arts).1)
          (stepFS env fs1 st0 done page arts)
          (bumpProcessed (stepStored env fs1 st0 done arts).2.2)
          (stepFS env fs2 st2 done page arts)
          (bumpProcessed (stepStored env fs2 st2 done arts).2.2)
          (by omega) hg2
          (by rw [hA]; exact H2)
          (by
            intro k
            rw [hB, alookup_cons]
            by_cases hk : page = k
            · subst hk
              rw [if_pos rfl, hpg]
            · rw [if_neg hk]
              exact H3 k)
          (by rw [hC]; exact H4)
        exact ⟨hr1, by rw [hr2, hdf], hr3⟩
    · rw [run_stop env fs1 st1 done page stop acc hcond]
      rw [run_stop env fs2 st2 done page stop acc hcond]
      exact ⟨rfl, rfl, rfl⟩

/-- Claim C1, counterexample: on a page holding a past-cutoff summary
followed by a relevant one, the relevant summary appearing AFTER the
first past-cutoff summary is still retained as a candidate (the claim
says every summary after the first past-cutoff one is excluded, which
would leave no candidates here). The stop flag is set as claimed. -/
theorem c1_counterexample :
    (getDciLinksFromLanding false
      [⟨"Old kill report", "September 20, 2023 - Location: Gaza", "/old"⟩,
       ⟨"Boy killed in strike", "January 5, 2024 - Location: Gaza", "/new"⟩]).1
      = [⟨"https://www.dci-palestine.org/new", "Boy killed in strike", "January 5, 2024"⟩] ∧
    (getDciLinksFromLanding false
      [⟨"Old kill report", "September 20, 2023 - Location: Gaza", "/old"⟩,
       ⟨"Boy killed in strike", "January 5, 2024 - Location: Gaza", "/new"⟩]).2 = true :=
  ⟨by decide, by decide⟩

/-- Claim C1 (amended): the listing filter tests every summary
individually — the candidate list is exactly the relevant (post-cutoff)
summaries in page order, regardless of position relative to a
past-cutoff summary; the stop flag ends up set exactly when some summary
on the page is at-or-before the cutoff (or undated); and once the stop
flag is set, the pagination driver fetches no further page: it returns
the accumulator, writes the aggregate, and leaves the counters
untouched. -/
theorem c1_amended_landing_stop (d : Bool) (arts : List RawArticle) :
    (getDciLinksFromLanding d arts).1 = candidatesOf arts ∧
    (getDciLinksFromLanding d arts).2 = (d || arts.any (fun a => !relevantB a)) ∧
    (∀ (env : Env) (fs : FS) (st : Stats) (page stop : Nat) (acc : List CacheRecord),
      getArticlesRecursively env fs st true page stop acc
        = ⟨acc, { fs with aggregate := some acc }, st, true⟩) := by
  refine ⟨by rw [landing_char], by rw [landing_char], ?_⟩
  intro env fs st page stop acc
  exact run_stop env fs st true page stop acc (by simp)

/-- Claim C2, counterexample: when the single relevant article's
extraction fails, the first run caches its record with null victims, and
the second run against that populated cache performs one detail-page
fetch, not zero. -/
theorem c2_counterexample :
    (getArticlesRecursively ceEnv
        (getArticlesRecursively ceEnv emptyFS stats0 false 1 1 []).fs
        stats0 false 1 1 []).stats.detailFetches = 1 := by
  have hfs : (getArticlesRecursively ceEnv emptyFS stats0 false 1 1 []).fs = ceR1fs := by
    rw [run_some ceEnv emptyFS stats0 (bumpPage stats0) false 1 1 [] [ceArt] rfl
      (by decide) (by decide)]
    rw [run_stop ceEnv
      (stepFS ceEnv emptyFS (bumpPage stats0) false 1 [ceArt])
      (bumpProcessed (stepStored ceEnv emptyFS (bumpPage stats0) false [ceArt]).2.2)
      (getDciLinksFromLanding false [ceArt]).2 (1 + 1) 1
      ([] ++ (stepStored ceEnv emptyFS (bumpPage stats0) false [ceArt]).1)
      (by decide)]
    decide
  rw [hfs]
  rw [run_some ceEnv ceR1fs stats0 stats0 false 1 1 [] [ceArt] rfl (by decide) (by decide)]
  rw [run_stop ceEnv
    (stepFS ceEnv ceR1fs stats0 false 1 [ceArt])
    (bumpProcessed (stepStored ceEnv ceR1fs stats0 false [ceArt]).2.2)
    (getDciLinksFromLanding false [ceArt]).2 (1 + 1) 1
    ([] ++ (stepStored ceEnv ceR1fs stats0 false [ceArt]).1)
    (by decide)]
  decide

/-- Claim C2 (amended): when every extraction of the first run succeeds
(every cached record carries a non-null result), re-running the pipeline
from page 1 against the first run's filesystem performs zero detail-page
fetches and produces identical results and identical aggregate
output. -/
theorem c2_amended (env : Env) (hext : ∀ s, env.extract s ≠ none) (stop : Nat) :
    (getArticlesRecursively env
        (getArticlesRecursively env emptyFS stats0 false 1 stop []).fs
        stats0 false 1 stop []).results
      = (getArticlesRecursively env emptyFS stats0 false 1 stop []).results ∧
    (getArticlesRecursively env
        (getArticlesRecursively env emptyFS stats0 false 1 stop []).fs
        stats0 false 1 stop []).stats.detailFetches = 0 ∧
    (getArticlesRecursively env
        (getArticlesRecursively env emptyFS stats0 false 1 stop []).fs
        stats0 false 1 stop []).fs.aggregate
      = (getArticlesRecursively env emptyFS stats0 false 1 stop []).fs.aggregate := by
  have h := run_replay env hext stop (stop + 1 - 1) 1 false [] emptyFS stats0
    (getArticlesRecursively env emptyFS stats0 false 1 stop []).fs stats0
    (Nat.le_refl _) (fun _ _ h => Option.noConfusion h)
    rfl (fun _ => rfl) rfl
  exact ⟨h.1, h.2.1, h.2.2⟩

/-- Claim C2, witness: the amended theorem applied to a concrete
one-page listing with an always-succeeding extractor. -/
theorem c2_amended_witness :
    (∀ s, c2wEnv.extract s ≠ none) ∧
    (getArticlesRecursively c2wEnv
        (getArticlesRecursively c2wEnv emptyFS stats0 false 1 1 []).fs
        stats0 false 1 1 []).results
      = (getArticlesRecursively c2wEnv emptyFS stats0 false 1 1 []).results ∧
    (getArticlesRecursively c2wEnv
        (getArticlesRecursively c2wEnv emptyFS stats0 false 1 1 []).fs
        stats0 false 1 1 []).stats.detailFetches = 0 :=
  ⟨fun _ h => Option.noConfusion h,
   (c2_amended c2wEnv (fun _ h => Option.noConfusion h) 1).1,
   (c2_amended c2wEnv (fun _ h => Option.noConfusion h) 1).2.1⟩

/-- Claim C3, counterexample: a summary whose date field has no
separator (so its date is unparseable) DOES set the pagination stop flag
in `getDciLinksFromLanding` — the claim says it does not. It is skipped,
as the claim says. -/
theorem c3_counterexample :
    (getDciLinksFromLanding false [⟨"Gaza update headline", "Gaza update", "/a"⟩]).2 = true ∧
    (getDciLinksFromLanding false [⟨"Gaza update headline", "Gaza update", "/a"⟩]).1 = [] :=
  ⟨by decide, by decide⟩

/-- Claim C3 (amended): in the main pipeline a summary with an
unparseable date is treated like a past-cutoff summary — it is excluded
from the candidates AND sets the pagination stop flag; in the puppeteer
implementation's `grab` filter such a summary is skipped and the scan
simply continues (that code path has no stop flag at all). -/
theorem c3_amended_unparseable :
    (∀ (d : Bool) (arts : List RawArticle) (a : RawArticle), a ∈ arts →
      jsParseDate (getDate a.dateDirty) = none →
      (getDciLinksFromLanding d arts).2 = true) ∧
    (∀ (d : Bool) (pre post : List RawArticle) (a : RawArticle),
      jsParseDate (getDate a.dateDirty) = none →
      (getDciLinksFromLanding d (pre ++ a :: post)).1
        = candidatesOf pre ++ candidatesOf post) ∧
    (∀ (pre post : List GrabEntry) (e : GrabEntry), getDateDci e.date_string = "" →
      grabFilter (pre ++ e :: post) = grabFilter pre ++ grabFilter post) := by
  refine ⟨?_, ?_, ?_⟩
  · intro d arts a ha hnone
    rw [landing_char]
    have : arts.any (fun a => !relevantB a) = true :=
      List.any_eq_true.mpr ⟨a, ha, by rw [relevantB_of_unparseable hnone]; rfl⟩
    simp [this]
  · intro d pre post a hnone
    rw [landing_char]
    show candidatesOf (pre ++ a :: post) = _
    unfold candidatesOf
    rw [List.filterMap_append, List.filterMap_cons, relevantB_of_unparseable hnone]
    simp
  · intro pre post e he
    rw [grabFilter_char, grabFilter_char, grabFilter_char]
    unfold grabKept
    rw [List.filterMap_append, List.filterMap_cons, grabKeep_of_empty he]
    simp

/-- Claim C3, witness: the amended theorem applied to a concrete
undated summary sitting before a relevant one. -/
theorem c3_amended_witness :
    jsParseDate (getDate "Gaza update") = none ∧
    (getDciLinksFromLanding false
      [⟨"x headline", "Gaza update", "/a"⟩,
       ⟨"Boy killed in strike", "January 5, 2024 - L", "/b"⟩]).2 = true ∧
    (getDciLinksFromLanding false
      ([] ++ (⟨"x headline", "Gaza update", "/a"⟩ : RawArticle)
        :: [⟨"Boy killed in strike", "January 5, 2024 - L", "/b"⟩])).1
      = candidatesOf [] ++ candidatesOf [⟨"Boy killed in strike", "January 5, 2024 - L", "/b"⟩] ∧
    getDateDci "no separator" = "" ∧
    grabFilter ([] ++ (⟨"no separator", "h", "l"⟩ : GrabEntry) :: [])
      = grabFilter [] ++ grabFilter [] := by
  refine ⟨by decide, ?_, ?_, by decide, ?_⟩
  · exact c3_amended_unparseable.1 false _
      ⟨"x headline", "Gaza update", "/a"⟩ (by simp) (by decide)
  · exact c3_amended_unparseable.2.1 false []
      [⟨"Boy killed in strike", "January 5, 2024 - L", "/b"⟩]
      ⟨"x headline", "Gaza update", "/a"⟩ (by decide)
  · exact c3_amended_unparseable.2.2 [] [] ⟨"no separator", "h", "l"⟩ (by decide)

/-- Claim C4: the source's shift-based headline hash
(`(hash << 5) - hash + char` with 32-bit truncation) computes exactly
the classic rolling hash `hash * 31 + charCode` truncated to a 32-bit
signed integer, for every string; and the cache key depends on the
headline alone, so equal headlines give equal keys whatever their links
or dates. -/
theorem c4_cachekey :
    (∀ s : String, jsHash s = specHash s) ∧
    (∀ c c' : Candidate, c.headline = c'.headline →
      jsHash c.headline = jsHash c'.headline) := by
  constructor
  · intro s
    exact foldl_hashStep_eq s.data 0
  · intro c c' h
    rw [h]

/-- Claim C4, witness: the hash equality on a concrete headline, and key
equality for two candidates sharing a headline but differing in link and
date. -/
theorem c4_cachekey_witness :
    jsHash "Boy killed in strike" = specHash "Boy killed in strike" ∧
    jsHash (Candidate.mk "https://x/a" "Boy killed in strike" "January 5, 2024").headline
      = jsHash (Candidate.mk "https://x/b" "Boy killed in strike" "January 7, 2024").headline :=
  ⟨c4_cachekey.1 "Boy killed in strike",
   c4_cachekey.2
     ⟨"https://x/a", "Boy killed in strike", "January 5, 2024"⟩
     ⟨"https://x/b", "Boy killed in strike", "January 7, 2024"⟩ rfl⟩

/-- Claim C5, counterexample: with an empty keyword set, a headline the
claim expects to match everything matches nothing — a summary that
passes the date check is skipped entirely (no write, no fetch, no
output) instead of being processed. -/
theorem c5_counterexample :
    keywordMatch [] "Boy killed in strike" = false ∧
    dateGt (jsParseDate "January 5, 2024") cutoffDate = true ∧
    getAndStoreArticlesFromLinks
        ⟨fun _ => none, fun _ => "", fun _ => none⟩ [] emptyFS stats0 []
        [⟨"https://x/a", "Boy killed in strike", "January 5, 2024"⟩]
      = ([], emptyFS, stats0) :=
  ⟨rfl, by decide, rfl⟩

/-- Claim C5 (amended): `[].some(...)` is false, so an empty keyword set
matches NO headline, and the store step with an empty keyword set skips
every candidate — it returns the accumulator unchanged and performs no
fetch and no write. -/
theorem c5_amended_empty_keywords :
    (∀ h : String, keywordMatch [] h = false) ∧
    (∀ (env : Env) (fs : FS) (st : Stats) (acc : List CacheRecord)
      (links : List Candidate),
      getAndStoreArticlesFromLinks env [] fs st acc links = (acc, fs, st)) := by
  constructor
  · intro h
    rfl
  · intro env fs st acc links
    induction links generalizing acc with
    | nil => rfl
    | cons c rest ih => simpa [getAndStoreArticlesFromLinks, keywordMatch] using ih _

/-- Claim C6, counterexample: on a date field with two separators the
extraction takes the text up to the LAST separator of the line, not the
first — `getDate` returns "January 1, 2024 - Location" where the
claimed first-separator rule would return "January 1, 2024". -/
theorem c6_counterexample :
    getDate "January 1, 2024 - Location - News" = "January 1, 2024 - Location" ∧
    specFirstSepDate "January 1, 2024 - Location - News" = "January 1, 2024" ∧
    getDate "January 1, 2024 - Location - News"
      ≠ specFirstSepDate "January 1, 2024 - Location - News" :=
  ⟨by decide, by decide, by decide⟩

/-- Claim C6 (amended): the extraction deletes whitespace runs and takes
the text up to the last separator on the first separator-bearing line;
in particular, for the date field "January 20, 2024 \n - Location: West
Bank" both implementations of `getDate` yield a string that parses to
the calendar date 2024-01-20. -/
theorem c6_amended_date_parsing :
    getDate "January 20, 2024 \n - Location: West Bank" = "January 20, 2024" ∧
    jsParseDate (getDate "January 20, 2024 \n - Location: West Bank")
      = some ⟨2024, 1, 20⟩ ∧
    getDateDci "January 20, 2024 \n - Location: West Bank" = "January 20 2024" ∧
    jsParseDate (getDateDci "January 20, 2024 \n - Location: West Bank")
      = some ⟨2024, 1, 20⟩ :=
  ⟨by decide, by decide, by decide, by decide⟩

/-- Claim C7: when a relevant (keyword-matching, uncached) article's
extraction call fails, the store step still writes its cache record with
null victims together with the fetched raw content, and then continues
normally with the remaining candidates, the failed article included in
the output. -/
theorem c7_soft_extraction_failure (env : Env) (kws : List String) (fs : FS)
    (st : Stats) (acc : List CacheRecord) (c : Candidate) (rest : List Candidate)
    (hkw : keywordMatch kws c.headline = true)
    (hmiss : victimsCached fs c = none)
    (hfail : env.extract (env.detail c.link) = none) :
    getAndStoreArticlesFromLinks env kws fs st acc (c :: rest)
      = getAndStoreArticlesFromLinks env kws
          (writeArticle fs c (env.detail c.link)
            ⟨c.headline, c.date, c.link, htmlPathOf c, none⟩)
          (bumpDetail st)
          (acc ++ [⟨c.headline, c.date, c.link, htmlPathOf c, none⟩]) rest ∧
    alookup (metaKeyOf c)
        (writeArticle fs c (env.detail c.link)
          ⟨c.headline, c.date, c.link, htmlPathOf c, none⟩).meta
      = some ⟨c.headline, c.date, c.link, htmlPathOf c, none⟩ ∧
    alookup (htmlPathOf c)
        (writeArticle fs c (env.detail c.link)
          ⟨c.headline, c.date, c.link, htmlPathOf c, none⟩).htmlFiles
      = some (env.detail c.link) := by
  refine ⟨?_, ?_, ?_⟩
  · simp [getAndStoreArticlesFromLinks, hkw, hmiss, hfail]
  · simp [writeArticle]
  · simp [writeArticle]

/-- Claim C7, witness: the soft-failure theorem applied to a concrete
candidate under an always-failing extractor. -/
theorem c7_soft_extraction_failure_witness :
    keywordMatch keywords c7Cand.headline = true ∧
    victimsCached emptyFS c7Cand = none ∧
    c7Env.extract (c7Env.detail c7Cand.link) = none ∧
    (getAndStoreArticlesFromLinks c7Env keywords emptyFS stats0 [] (c7Cand :: [])
        = getAndStoreArticlesFromLinks c7Env keywords
            (writeArticle emptyFS c7Cand (c7Env.detail c7Cand.link)
              ⟨c7Cand.headline, c7Cand.date, c7Cand.link, htmlPathOf c7Cand, none⟩)
            (bumpDetail stats0)
            ([] ++ [⟨c7Cand.headline, c7Cand.date, c7Cand.link, htmlPathOf c7Cand, none⟩])
            [] ∧
      alookup (metaKeyOf c7Cand)
          (writeArticle emptyFS c7Cand (c7Env.detail c7Cand.link)
            ⟨c7Cand.headline, c7Cand.date, c7Cand.link, htmlPathOf c7Cand, none⟩).meta
        = some ⟨c7Cand.headline, c7Cand.date, c7Cand.link, htmlPathOf c7Cand, none⟩ ∧
      alookup (htmlPathOf c7Cand)
          (writeArticle emptyFS c7Cand (c7Env.detail c7Cand.link)
            ⟨c7Cand.headline, c7Cand.date, c7Cand.link, htmlPathOf c7Cand, none⟩).htmlFiles
        = some (c7Env.detail c7Cand.link)) :=
  ⟨by decide, rfl, rfl,
   c7_soft_extraction_failure c7Env keywords emptyFS stats0 [] c7Cand []
     (by decide) rfl rfl⟩

/-- Claim C8: the pagination driver terminates — starting at any page it
processes at most `stop + 1 - page` pages; it transitions to DONE
(returning the accumulator and writing the final aggregate, with no
further fetch) as soon as the stop flag is set or the page number
exceeds the limit; and when a page fetch yields empty content it returns
the accumulated partial results as-is. -/
theorem c8_pagination_terminates (env : Env) (fs : FS) (st : Stats) (done : Bool)
    (page stop : Nat) (acc : List CacheRecord) :
    (getArticlesRecursively env fs st done page stop acc).stats.pagesProcessed
      ≤ st.pagesProcessed + (stop + 1 - page) ∧
    (done = true ∨ stop < page →
      getArticlesRecursively env fs st done page stop acc
        = ⟨acc, { fs with aggregate := some acc }, st, done⟩) ∧
    (done = false → page ≤ stop → alookup page fs.pageFiles = none →
      env.listing page = none →
      getArticlesRecursively env fs st done page stop acc
        = ⟨acc, fs, bumpPage st, done⟩) := by
  refine ⟨run_pages_bound env stop (stop + 1 - page) page fs st done acc (Nat.le_refl _),
    ?_, ?_⟩
  · intro h
    apply run_stop
    intro ⟨hd, hp⟩
    rcases h with h | h
    · rw [h] at hd; cases hd
    · omega
  · intro h1 h2 hl he
    apply run_none env fs st (bumpPage st) done page stop acc h1 h2
    unfold fetchPage
    rw [hl, he]

/-- Claim C8, witness: the termination theorem applied to a concrete
empty listing source, discharging each branch's hypotheses. -/
theorem c8_pagination_terminates_witness :
    (getArticlesRecursively ⟨fun _ => none, fun _ => "", fun _ => none⟩
        emptyFS stats0 false 1 3 []).stats.pagesProcessed
      ≤ stats0.pagesProcessed + (3 + 1 - 1) ∧
    getArticlesRecursively ⟨fun _ => none, fun _ => "", fun _ => none⟩
        emptyFS stats0 true 1 3 []
      = ⟨[], { emptyFS with aggregate := some [] }, stats0, true⟩ ∧
    getArticlesRecursively ⟨fun _ => none, fun _ => "", fun _ => none⟩
        emptyFS stats0 false 1 3 []
      = ⟨[], emptyFS, bumpPage stats0, false⟩ :=
  ⟨(c8_pagination_terminates _ emptyFS stats0 false 1 3 []).1,
   (c8_pagination_terminates _ emptyFS stats0 true 1 3 []).2.1 (Or.inl rfl),
   (c8_pagination_terminates _ emptyFS stats0 false 1 3 []).2.2 rfl (by decide) rfl rfl⟩

/-- Claim C9, counterexample: two summaries with the same headline and
date but different links collide on one cache key; after processing
both, the cache still holds the FIRST article's record and raw content —
there is no later write superseding the earlier record (both articles
are still output, so no crash and no merge). -/
theorem c9_counterexample :
    (getAndStoreArticlesFromLinks
        ⟨fun _ => none, fun l => "RAW:" ++ l, fun h => some [⟨h, "dod", "loc", "7", none⟩]⟩
        keywords emptyFS stats0 []
        [⟨"https://x/a", "Boy killed in strike", "January 5, 2024"⟩,
         ⟨"https://x/b", "Boy killed in strike", "January 5, 2024"⟩]).2.1.meta
      = [("2024/January/-2069810402.json",
          ⟨"Boy killed in strike", "January 5, 2024", "https://x/a",
           "2024/January/-2069810402.html",
           some [⟨"RAW:https://x/a", "dod", "loc", "7", none⟩]⟩)] ∧
    (getAndStoreArticlesFromLinks
        ⟨fun _ => none, fun l => "RAW:" ++ l, fun h => some [⟨h, "dod", "loc", "7", none⟩]⟩
        keywords emptyFS stats0 []
        [⟨"https://x/a", "Boy killed in strike", "January 5, 2024"⟩,
         ⟨"https://x/b", "Boy killed in strike", "January 5, 2024"⟩]).2.1.htmlFiles
      = [("2024/January/-2069810402.html", "RAW:https://x/a")] ∧
    (getAndStoreArticlesFromLinks
        ⟨fun _ => none, fun l => "RAW:" ++ l, fun h => some [⟨h, "dod", "loc", "7", none⟩]⟩
        keywords emptyFS stats0 []
        [⟨"https://x/a", "Boy killed in strike", "January 5, 2024"⟩,
         ⟨"https://x/b", "Boy killed in strike", "January 5, 2024"⟩]).1.length = 2 :=
  ⟨by decide, by decide, by decide⟩

/-- Claim C9 (amended): identical headlines give identical cache keys
(same path when the dates agree); processing the colliding second
summary neither crashes nor merges records — when the first occurrence's
extraction succeeded, the second occurrence REUSES the cached record
(its victims) without any further fetch or write, so the first write is
retained; exactly one detail fetch and one record write happen for the
pair. -/
theorem c9_amended_collision (env : Env) (kws : List String) (fs : FS) (st : Stats)
    (acc : List CacheRecord) (ca cb : Candidate) (rest : List Candidate)
    (vs : List Victim)
    (hh : cb.headline = ca.headline) (hd : cb.date = ca.date)
    (hkw : keywordMatch kws ca.headline = true)
    (hmiss : victimsCached fs ca = none)
    (hvs : env.extract (env.detail ca.link) = some vs) :
    metaKeyOf cb = metaKeyOf ca ∧
    getAndStoreArticlesFromLinks env kws fs st acc (ca :: cb :: rest)
      = getAndStoreArticlesFromLinks env kws
          (writeArticle fs ca (env.detail ca.link)
            ⟨ca.headline, ca.date, ca.link, htmlPathOf ca, some vs⟩)
          (bumpDetail st)
          (acc ++ [⟨ca.headline, ca.date, ca.link, htmlPathOf ca, some vs⟩,
                   ⟨cb.headline, cb.date, cb.link, htmlPathOf cb, some vs⟩]) rest ∧
    (bumpDetail st).detailFetches = st.detailFetches + 1 ∧
    alookup (metaKeyOf ca)
        (writeArticle fs ca (env.detail ca.link)
          ⟨ca.headline, ca.date, ca.link, htmlPathOf ca, some vs⟩).meta
      = some ⟨ca.headline, ca.date, ca.link, htmlPathOf ca, some vs⟩ ∧
    alookup (htmlPathOf ca)
        (writeArticle fs ca (env.detail ca.link)
          ⟨ca.headline, ca.date, ca.link, htmlPathOf ca, some vs⟩).htmlFiles
      = some (env.detail ca.link) := by
  have hkey : metaKeyOf cb = metaKeyOf ca := by
    unfold metaKeyOf
    rw [hh, hd]
  refine ⟨hkey, ?_, rfl, by simp [writeArticle], by simp [writeArticle]⟩
  have h1 : getAndStoreArticlesFromLinks env kws fs st acc (ca :: cb :: rest)
      = getAndStoreArticlesFromLinks env kws
          (writeArticle fs ca (env.detail ca.link)
            ⟨ca.headline, ca.date, ca.link, htmlPathOf ca, some vs⟩)
          (bumpDetail st)
          (acc ++ [⟨ca.headline, ca.date, ca.link, htmlPathOf ca, some vs⟩])
          (cb :: rest) := by
    simp [getAndStoreArticlesFromLinks, hkw, hmiss, hvs]
  rw [h1]
  have hkw2 : keywordMatch kws cb.headline = true := by rw [hh]; exact hkw
  have hvc2 : victimsCached
      (writeArticle fs ca (env.detail ca.link)
        ⟨ca.headline, ca.date, ca.link, htmlPathOf ca, some vs⟩) cb = some vs := by
    rw [victimsCached_def]
    unfold optVictims
    rw [hkey]
    simp [writeArticle]
  simp [getAndStoreArticlesFromLinks, hkw2, hvc2]

/-- Claim C9, witness: the collision theorem applied to two concrete
same-headline candidates with distinct links. -/
theorem c9_amended_collision_witness :
    c9CandB.headline = c9CandA.headline ∧
    c9CandB.date = c9CandA.date ∧
    keywordMatch keywords c9CandA.headline = true ∧
    victimsCached emptyFS c9CandA = none ∧
    c9Env.extract (c9Env.detail c9CandA.link)
      = some [⟨"RAW:https://x/a", "dod", "loc", "7", none⟩] ∧
    metaKeyOf c9CandB = metaKeyOf c9CandA :=
  ⟨rfl, rfl, by decide, rfl, rfl,
   (c9_amended_collision c9Env keywords emptyFS stats0 [] c9CandA c9CandB []
     [⟨"RAW:https://x/a", "dod", "loc", "7", none⟩] rfl rfl (by decide) rfl rfl).1⟩

/-- Claim C10: for every non-empty name, `getNameVariations` returns a
non-empty list containing the full name itself, and for a name without
spaces it returns exactly the one-element list holding that name. -/
theorem c10_name_variations (name : String) (hne : name ≠ "") :
    getNameVariations name ≠ [] ∧
    name ∈ getNameVariations name ∧
    ((∀ ch ∈ name.data, ch ≠ ' ') → getNameVariations name = [name]) := by
  simp only [getNameVariations]
  by_cases hl : ((splitOnChar ' ' name.data).map String.mk).length = 1
  · rw [if_pos hl]
    exact ⟨by simp, by simp, fun _ => rfl⟩
  · rw [if_neg hl]
    refine ⟨by simp, by simp, ?_⟩
    intro hns
    exfalso
    apply hl
    rw [splitOnChar_of_not_mem hns]
    simp

/-- Claim C10, witness: the theorem applied to a concrete single-word
name. -/
theorem c10_name_variations_witness :
    getNameVariations "Ahmad" ≠ [] ∧
    "Ahmad" ∈ getNameVariations "Ahmad" ∧
    ((∀ ch ∈ ("Ahmad" : String).data, ch ≠ ' ') →
      getNameVariations "Ahmad" = ["Ahmad"]) :=
  c10_name_variations "Ahmad" (by decide)

end BOG
